import Mathlib

/-!
Shallow embedding of the core of `br.py` (voter-satisfaction-efficiency
election simulator) and proofs about it.

Conventions of the embedding:
* a voter is its tuple of per-candidate utilities, `List ℝ` where the code
  does real arithmetic through `sqrt`, and `List ℚ` for the exact score /
  winner computations (the Python floats are idealized as exact rationals);
* Python exceptions (`AssertionError`, `ValueError`, `TypeError`,
  `NameError`, `ZeroDivisionError`, `AttributeError`) become `Option` /
  `Except String` results;
* each call to the `random` module is replaced by an explicit argument
  (a drawn index, a fresh voter, a mutation function), so a theorem
  quantifying over those arguments covers every possible random draw.
-/

namespace VseSim

/-- Embedding of `Voter.hybridWith` (br.py lines 33-59): requires equal
lengths (Python `assert`, hence `none` on mismatch) and returns the list
whose i-th entry is `self[i]/sqrt(1 + w2**2) + w2*v2[i]/sqrt(1 + w2**2)`. -/
noncomputable def hybridWith (self v2 : List ℝ) (w2 : ℝ) : Option (List ℝ) :=
  if self.length = v2.length then
    some ((List.range self.length).map fun i =>
      self.getD i 0 / Real.sqrt (1 + w2 ^ 2)
        + w2 * v2.getD i 0 / Real.sqrt (1 + w2 ^ 2))
  else
    none

/-- Embedding of `ReverseModel.__call__` (br.py lines 138-144): raises
`ValueError` on an odd voter count, otherwise returns `nvot/2` copies of the
base voter followed by `nvot/2` copies of its pointwise negation
(`vType(-q for q in basevoter)`).  The randomly drawn base voter is passed
in explicitly. -/
noncomputable def reverseModel (nvot : Nat) (basevoter : List ℝ) :
    Except String (List (List ℝ)) :=
  if nvot % 2 ≠ 0 then
    Except.error "ValueError"
  else
    Except.ok (List.replicate (nvot / 2) basevoter ++
               List.replicate (nvot / 2) (basevoter.map fun q => -q))

/-- Python arity of `Voter.copyWithUtils` (br.py line 61): it is declared
with the two parameters `(self, utils)`. -/
def voterCopyWithUtilsParamCount : Nat := 2

/-- Number of positional arguments that `PersonalityVoter.copyWithUtils`
(br.py line 100) passes to the superclass method: the bound call
`super().copyWithUtils(self, utils)` supplies the implicit bound `self`
plus the two explicit arguments `self` and `utils`, i.e. three in all. -/
def personalityCopySuperCallArgCount : Nat := 3

/-- A `PersonalityVoter` (br.py lines 86-103): utilities plus the auxiliary
`cluster` and `personality` attributes stamped by `PersonalityVoter.rand`. -/
structure PersonalityVoter where
  utils : List ℝ
  cluster : Nat
  personality : ℝ

/-- Embedding of `PersonalityVoter.copyWithUtils` (br.py lines 99-103).
The body runs `voter = super().copyWithUtils(self, utils)`: since
`super().copyWithUtils` is already bound to `self`, this call passes
three positional arguments to a method declared with two parameters, so
CPython raises `TypeError` before the attribute copying is reached.  The
intended behaviour (copy the utilities and carry `cluster` and
`personality` forward) sits in the then-branch, which is unreachable. -/
def PersonalityVoter.copyWithUtils (self : PersonalityVoter) (utils : List ℝ) :
    Except String PersonalityVoter :=
  if personalityCopySuperCallArgCount = voterCopyWithUtilsParamCount then
    Except.ok { utils := utils, cluster := self.cluster,
                personality := self.personality }
  else
    Except.error "TypeError: copyWithUtils() takes 2 positional arguments but 3 were given"

/-- Embedding of `Voter.hybridWith` as inherited by `PersonalityVoter`:
the length assertion, then the blended utilities are passed to the
overridden `copyWithUtils` (dynamic dispatch on `self.__class__`). -/
noncomputable def PersonalityVoter.hybridWith (self v2 : PersonalityVoter)
    (w2 : ℝ) : Except String PersonalityVoter :=
  if self.utils.length = v2.utils.length then
    self.copyWithUtils ((List.range self.utils.length).map fun i =>
      self.utils.getD i 0 / Real.sqrt (1 + w2 ^ 2)
        + w2 * v2.utils.getD i 0 / Real.sqrt (1 + w2 ^ 2))
  else
    Except.error "AssertionError"

/-- Python's `mean` of a list of rationals (`sum/len`); used by
`Electorate.socUtils` and `Method.vseOn`. -/
def listMean (l : List ℚ) : ℚ := l.sum / l.length

/-- Embedding of Python `zip(*self)` for a list of rows: the columns up to
the length of the shortest row (`zip` truncates). -/
def pyZip (e : List (List ℚ)) : List (List ℚ) :=
  (List.range ((e.map List.length).min?.getD 0)).map fun i =>
    e.map fun row => row.getD i 0

/-- Embedding of `Electorate.socUtils` (br.py lines 108-116):
`list(map(mean, zip(*self)))`, the per-candidate mean utility. -/
def socUtils (e : List (List ℚ)) : List ℚ := (pyZip e).map listMean

/-- Embedding of `Method.winner`'s `winScore = max(results)`
(br.py line 223); `max?` is `none` exactly when Python's `max` raises. -/
def winScore (results : List ℚ) : Option ℚ := results.max?

/-- Embedding of the comprehension at br.py line 224:
`[cand for (cand, score) in enumerate(results) if score == winScore]`. -/
def winnersOf (results : List ℚ) : List Nat :=
  ((results.enum.filter fun p => some p.2 = winScore results).map Prod.fst)

/-- Embedding of `Method.winner` (br.py lines 213-225).  The final
`random.choice(winners)` is modelled by an explicit draw `k`: the choice
returns `winners[k % len(winners)]`, so quantifying over `k` covers every
possible random draw, and draws `k < len(winners)` hit each tied index
exactly once (uniformly, when `k` is uniform). -/
def winner (results : List ℚ) (k : Nat) : Nat :=
  (winnersOf results).getD (k % (winnersOf results).length) 0

/-- Embedding of `Method.vseOn` (br.py lines 248-258).  The method computes
`multiResults`, the social utilities, their max and mean, and then executes
`return (... for result in results) + (self.__class__.__name__,)`.
Creating that generator expression immediately evaluates its outer
iterable, the bare name `results` — which is not defined in any enclosing
scope (the local is named `multiResults`) — so CPython raises
`NameError` and the function never returns a value.  (Had the name
resolved, adding a generator to a tuple would raise `TypeError` next.) -/
def vseOn (voters : List (List ℚ)) : Except String (List ℚ × String) :=
  let utils := socUtils voters
  let _best := utils.max?.getD 0
  let _rand := listMean utils
  Except.error "NameError: name results is not defined"

/-- The per-voter, per-method memo written by `rememberBallot`
(br.py lines 274-282) and `setattr(voter, cls.__name__ + "_isStrat", ...)`:
`hon`/`strat` hold the memoized ballots (`none` = attribute absent) and
`isStrat` the optional "used strategy" flag. -/
structure VoterAttrs (β : Type) where
  hon : Option β
  strat : Option β
  isStrat : Option Bool

/-- Embedding of `Method.ossBallot` (br.py lines 260-272):
`getattr(voter, cname + "_isStrat", False)` selects between the memoized
strategic and honest ballots; `getattr` without a default raises
`AttributeError` when the needed ballot was never memoized. -/
def ossBallot {β : Type} (voter : VoterAttrs β) : Except String β :=
  if voter.isStrat.getD false then
    match voter.strat with
    | some b => Except.ok b
    | none => Except.error "AttributeError: strat ballot not memoized"
  else
    match voter.hon with
    | some b => Except.ok b
    | none => Except.error "AttributeError: hon ballot not memoized"

/-- Embedding of `Score.honBallot` (br.py lines 289-295):
`bot = min(utils)`, `scale = max(utils) - bot`, ballot entry
`floor(10.99 * (util - bot) / scale)`.  Python raises `ValueError` on an
empty utility list (`min`/`max`) and `ZeroDivisionError` when all
utilities are equal (`scale == 0`, float division). -/
def scoreHonBallot (utils : List ℚ) : Except String (List ℤ) :=
  match utils.min?, utils.max? with
  | some bot, some top =>
    let scale := top - bot
    if scale = 0 then
      Except.error "ZeroDivisionError: float division by zero"
    else
      Except.ok (utils.map fun util => ⌊(1099 / 100 : ℚ) * (util - bot) / scale⌋)
  | _, _ => Except.error "ValueError: arg is an empty sequence"

/-- Embedding of the frontrunner computation in `Score.stratBallotFor`
(br.py lines 301-303): `places = sorted(enumerate(info), key=lambda x:x[0])`
followed by `frontrunners = places[0][0], places[1][0]`.  Python's stable
sort keyed on `x[0]` is `mergeSort` ordered by the first component. -/
def scoreFrontrunners (info : List ℚ) : Nat × Nat :=
  let places := info.enum.mergeSort fun a b => a.1 ≤ b.1
  ((places.getD 0 (0, 0)).1, (places.getD 1 (0, 0)).1)

/-- Embedding of the inner `stratBallot` of `Score.stratBallotFor`
(br.py lines 304-323) for fixed frontrunners `front`.  Returns the ballot
together with the value written to the `Score_isStrat` attribute
(`none` when the `setattr` is not executed, i.e. in the equal-cuts
branch). -/
def scoreStratBallot (front : Nat × Nat) (voter : List ℚ) :
    List ℤ × Option Bool :=
  let cut0 := voter.getD front.1 0
  let cut1 := voter.getD front.2 0
  if cut0 = cut1 then
    (voter.map fun util => if cut0 ≤ util then (10 : ℤ) else 0, none)
  else
    let strat := decide (cut0 < cut1)
    let cuts : ℚ × ℚ := if cut0 < cut1 then (cut1, cut0) else (cut0, cut1)
    (voter.map fun util =>
        max 0 (min 10 ⌊(1099 / 100 : ℚ) * (util - cuts.2) / (cuts.1 - cuts.2)⌋),
      some strat)

/-- Embedding of the growth loop of `PolyaModel.__call__`
(br.py lines 187-198): `while len(election) < nvot`, draw
`i = random.randrange(len(election) + alpha)` (modelled as
`draw len % (len + alpha)` for an arbitrary stream `draw` of naturals),
append `election[i].mutantChild(mutantFactor)` if `i` is in range and a
fresh random voter otherwise (`mutate`/`fresh` package the randomness of
those two constructions), and repeat.  Each iteration appends exactly one
voter, which is the termination measure `nvot - election.length`. -/
def polyaExtend (alpha : Nat) (mutate : List ℚ → Nat → List ℚ)
    (fresh : Nat → List ℚ) (draw : Nat → Nat) (nvot : Nat)
    (election : List (List ℚ)) : List (List ℚ) :=
  if election.length < nvot then
    polyaExtend alpha mutate fresh draw nvot (election ++
      [if h : draw election.length % (election.length + alpha) <
            election.length then
          mutate (election.get
            ⟨draw election.length % (election.length + alpha), h⟩)
            election.length
        else
          fresh election.length])
  else
    election
termination_by nvot - election.length
decreasing_by simp; omega

/-- The memo update performed by running the (rememberBallot-decorated)
strategic ballot on a voter: `Score_strat` is always written, and
`Score_isStrat` only when the `setattr` branch ran. -/
def recordStrat {β : Type} (a : VoterAttrs β) (r : β × Option Bool) :
    VoterAttrs β :=
  { a with
    strat := some r.1
    isStrat := match r.2 with
               | some b => some b
               | none => a.isStrat }

/-! ## Theorems -/

/-- C1: the claim says `vseOn` runs `multiResults` and returns, for each of
the three result sets, `(utility[winner] - mean)/(max - mean)` plus the
method name.  The code cannot: its return expression iterates over the
undefined name `results` (the local is `multiResults`), so every call
raises `NameError` and no VSE values are ever returned. -/
theorem C1_vseOn_always_raises (voters : List (List ℚ)) :
    vseOn voters = Except.error "NameError: name results is not defined" :=
  rfl

/-- C3: for equal-length voters, `hybridWith` succeeds and the i-th
utility of the result is
`self[i]/sqrt(1 + w2^2) + w2*v2[i]/sqrt(1 + w2^2)`. -/
theorem C3_hybridWith_formula (self v2 : List ℝ) (w2 : ℝ)
    (h : self.length = v2.length) :
    ∃ l, hybridWith self v2 w2 = some l ∧ l.length = self.length ∧
      ∀ i, i < self.length →
        l.getD i 0 = self.getD i 0 / Real.sqrt (1 + w2 ^ 2)
          + w2 * v2.getD i 0 / Real.sqrt (1 + w2 ^ 2) := by
  refine ⟨(List.range self.length).map fun i =>
      self.getD i 0 / Real.sqrt (1 + w2 ^ 2)
        + w2 * v2.getD i 0 / Real.sqrt (1 + w2 ^ 2),
    by simp [hybridWith, h], by simp, ?_⟩
  intro i hi
  rw [List.getD_eq_getElem _ _ (by simpa using hi)]
  simp [hi]

/-- Witness for C3 at the spec's concrete instance:
`Voter([1,2,5]).hybridWith(Voter([-0.5,-1,0]), 0.75) == (0.5, 1.0, 4.0)`. -/
theorem C3_hybridWith_formula_witness :
    (∃ l, hybridWith [1, 2, 5] [-(1/2), -1, 0] (3/4) = some l ∧
        l.length = 3 ∧
        ∀ i, i < 3 →
          l.getD i 0 = ([1, 2, 5] : List ℝ).getD i 0 / Real.sqrt (1 + (3/4 : ℝ) ^ 2)
            + (3/4) * ([-(1/2), -1, 0] : List ℝ).getD i 0 / Real.sqrt (1 + (3/4 : ℝ) ^ 2)) ∧
    hybridWith [1, 2, 5] [-(1/2), -1, 0] (3/4) = some [1/2, 1, 4] := by
  have hsq : Real.sqrt (1 + (3/4 : ℝ) ^ 2) = 5/4 := by
    rw [show (1 + (3/4 : ℝ) ^ 2) = (5/4 : ℝ) ^ 2 by norm_num]
    exact Real.sqrt_sq (by norm_num)
  have h25 : Real.sqrt 25 = 5 := by
    rw [show (25 : ℝ) = 5 ^ 2 by norm_num]
    exact Real.sqrt_sq (by norm_num)
  have h16 : Real.sqrt 16 = 4 := by
    rw [show (16 : ℝ) = 4 ^ 2 by norm_num]
    exact Real.sqrt_sq (by norm_num)
  constructor
  · exact C3_hybridWith_formula [1, 2, 5] [-(1/2), -1, 0] (3/4) (by simp)
  · simp only [hybridWith]
    norm_num [List.range_succ, hsq, h25, h16]

/-- C4: the claim says a voter derived from a `PersonalityVoter` by
blending is successfully created with the same cluster and personality.
In fact `PersonalityVoter.copyWithUtils` passes `self` as an extra
positional argument to the superclass method, so every blend of a
`PersonalityVoter` raises `TypeError` and no derived voter is created. -/
theorem C4_personality_hybrid_raises (self v2 : PersonalityVoter) (w2 : ℝ)
    (h : self.utils.length = v2.utils.length) :
    PersonalityVoter.hybridWith self v2 w2 =
      Except.error "TypeError: copyWithUtils() takes 2 positional arguments but 3 were given" := by
  simp [PersonalityVoter.hybridWith, PersonalityVoter.copyWithUtils, h,
    personalityCopySuperCallArgCount, voterCopyWithUtilsParamCount]

/-- Witness for C4 at a concrete pair of personality voters. -/
theorem C4_personality_hybrid_raises_witness :
    PersonalityVoter.hybridWith ⟨[1], 0, 0⟩ ⟨[2], 1, 0⟩ (1/2) =
      Except.error "TypeError: copyWithUtils() takes 2 positional arguments but 3 were given" :=
  C4_personality_hybrid_raises ⟨[1], 0, 0⟩ ⟨[2], 1, 0⟩ (1/2) rfl

/-- C5: when both ballots are memoized, `ossBallot` returns the strategic
ballot exactly when the `isStrat` flag is set to true (an absent or false
flag selects the honest ballot), and when the ballot demanded by the flag
was never memoized the call raises `AttributeError`. -/
theorem C5_ossBallot_spec :
    (∀ (a : VoterAttrs (List ℤ)) (hb sb : List ℤ), a.hon = some hb →
        a.strat = some sb →
        ossBallot a = Except.ok (if a.isStrat.getD false then sb else hb)) ∧
    (∀ a : VoterAttrs (List ℤ),
        (a.isStrat.getD false = true ∧ a.strat = none) ∨
        (a.isStrat.getD false = false ∧ a.hon = none) →
        ∃ msg, ossBallot a = Except.error msg) := by
  constructor
  · intro a hb sb hh hs
    by_cases hflag : a.isStrat.getD false = true
    · simp [ossBallot, hflag, hs]
    · simp only [Bool.not_eq_true] at hflag
      simp [ossBallot, hflag, hh]
  · rintro a (⟨hflag, hs⟩ | ⟨hflag, hh⟩)
    · exact ⟨"AttributeError: strat ballot not memoized",
        by simp [ossBallot, hflag, hs]⟩
    · exact ⟨"AttributeError: hon ballot not memoized",
        by simp [ossBallot, hflag, hh]⟩

/-- Witness for C5: strat-flagged voter gets the strategic ballot, an
unflagged voter the honest one, and a missing memo raises. -/
theorem C5_ossBallot_spec_witness :
    ossBallot (⟨some [1], some [2], some true⟩ : VoterAttrs (List ℤ)) =
      Except.ok [2] ∧
    ossBallot (⟨some [1], some [2], none⟩ : VoterAttrs (List ℤ)) =
      Except.ok [1] ∧
    ∃ msg, ossBallot (⟨none, none, some true⟩ : VoterAttrs (List ℤ)) =
      Except.error msg :=
  ⟨C5_ossBallot_spec.1 ⟨some [1], some [2], some true⟩ [1] [2] rfl rfl,
   C5_ossBallot_spec.1 ⟨some [1], some [2], none⟩ [1] [2] rfl rfl,
   C5_ossBallot_spec.2 ⟨none, none, some true⟩ (Or.inl ⟨rfl, rfl⟩)⟩

/-- C10: when the voter's utilities for the two frontrunners coincide, the
strategic ballot is the all-or-nothing ballot (10 at or above that
utility, 0 below) and the `isStrat` flag is not written, so the
one-sided-strategic ballot afterwards is the memoized honest ballot. -/
theorem C10_equal_frontrunner_utils (voter : List ℚ) (f0 f1 : Nat)
    (a : VoterAttrs (List ℤ)) (hb : List ℤ)
    (hcut : voter.getD f0 0 = voter.getD f1 0)
    (hhon : a.hon = some hb) (hflag : a.isStrat = none) :
    scoreStratBallot (f0, f1) voter =
      (voter.map fun util => if voter.getD f0 0 ≤ util then (10 : ℤ) else 0,
        none) ∧
    ossBallot (recordStrat a (scoreStratBallot (f0, f1) voter)) =
      Except.ok hb := by
  have h1 : scoreStratBallot (f0, f1) voter =
      (voter.map fun util => if voter.getD f0 0 ≤ util then (10 : ℤ) else 0,
        none) := by
    simp only [scoreStratBallot]
    rw [if_pos hcut]
  refine ⟨h1, ?_⟩
  rw [h1]
  simp [recordStrat, ossBallot, hflag, hhon]

/-- Witness for C10 at voter `[1, 1, -2]` with frontrunners 0 and 1 and
memoized honest ballot `[0, 0, 10]`. -/
theorem C10_equal_frontrunner_utils_witness :
    scoreStratBallot (0, 1) [1, 1, -2] = ([10, 10, 0], none) ∧
    ossBallot (recordStrat ⟨some [0, 0, 10], none, none⟩
        (scoreStratBallot (0, 1) [1, 1, -2])) = Except.ok [0, 0, 10] := by
  have h := C10_equal_frontrunner_utils [1, 1, -2] 0 1
    ⟨some [0, 0, 10], none, none⟩ [0, 0, 10] rfl rfl rfl
  exact ⟨by rw [h.1]; decide, h.2⟩

/-- C9 counterexample: the claim quantifies over every voter, but a voter
whose utilities are all equal makes `scale = max - min = 0` and
`Score.honBallot` raises `ZeroDivisionError` instead of producing a ballot
in `[0, 10]`. -/
theorem C9_scoreHonBallot_counterexample :
    scoreHonBallot [1, 1] =
      Except.error "ZeroDivisionError: float division by zero" := by
  simp [scoreHonBallot, List.min?_cons', List.max?_cons']

/-- C9 (amended): for every voter whose utilities are not all equal,
`Score.honBallot` returns a ballot of the voter's length with every entry
in `[0, 10]`, `0` exactly at the voter's minimum utility and `10` at the
voter's maximum utility. -/
theorem C9_scoreHonBallot_rescales (utils : List ℚ) (bot top : ℚ)
    (hbot : utils.min? = some bot) (htop : utils.max? = some top)
    (hne : bot ≠ top) :
    ∃ b, scoreHonBallot utils = Except.ok b ∧ b.length = utils.length ∧
      (∀ v ∈ b, 0 ≤ v ∧ v ≤ 10) ∧
      (∀ i, i < utils.length → utils.getD i 0 = bot → b.getD i 0 = 0) ∧
      (∀ i, i < utils.length → utils.getD i 0 = top → b.getD i 0 = 10) := by
  haveI : Std.Antisymm ((· : ℚ) ≤ ·) := ⟨fun h1 h2 => le_antisymm h1 h2⟩
  have hb := (List.min?_eq_some_iff (fun a => le_refl a)
    (fun a b => min_choice a b) (fun a b c => le_min_iff)).1 hbot
  have ht := (List.max?_eq_some_iff (fun a => le_refl a)
    (fun a b => max_choice a b) (fun a b c => max_le_iff)).1 htop
  have hbt : bot < top := lt_of_le_of_ne (hb.2 top ht.1) hne
  have hscale : (0 : ℚ) < top - bot := by linarith
  have hkey : ∀ u ∈ utils,
      (0 : ℤ) ≤ ⌊(1099 / 100 : ℚ) * (u - bot) / (top - bot)⌋ ∧
      ⌊(1099 / 100 : ℚ) * (u - bot) / (top - bot)⌋ ≤ 10 := by
    intro u hu
    have h1 : (0 : ℚ) ≤ u - bot := by have := hb.2 u hu; linarith
    have h2 : u ≤ top := ht.2 u hu
    constructor
    · rw [Int.le_floor]
      push_cast
      exact div_nonneg (mul_nonneg (by norm_num) h1) hscale.le
    · have hlt : (1099 / 100 : ℚ) * (u - bot) / (top - bot) < 11 := by
        rw [div_lt_iff₀ hscale]
        linarith
      have h3 : ⌊(1099 / 100 : ℚ) * (u - bot) / (top - bot)⌋ < 11 :=
        Int.floor_lt.2 (by push_cast; exact hlt)
      omega
  refine ⟨utils.map fun util => ⌊(1099 / 100 : ℚ) * (util - bot) / (top - bot)⌋,
    ?_, by simp, ?_, ?_, ?_⟩
  · simp only [scoreHonBallot, hbot, htop]
    rw [if_neg (fun hz => hne (by linarith))]
  · intro v hv
    obtain ⟨u, hu, rfl⟩ := List.mem_map.1 hv
    exact hkey u hu
  · intro i hi hbi
    rw [List.getD_eq_getElem _ _ (by simpa using hi)]
    rw [List.getD_eq_getElem _ _ hi] at hbi
    simp only [List.getElem_map, hbi]
    norm_num
  · intro i hi hti
    rw [List.getD_eq_getElem _ _ (by simpa using hi)]
    rw [List.getD_eq_getElem _ _ hi] at hti
    simp only [List.getElem_map, hti]
    rw [mul_div_assoc, div_self (ne_of_gt hscale), mul_one]
    rw [Int.floor_eq_iff]
    constructor <;> norm_num

/-- Witness for the amended C9 at the voter `[0, 2, 1]`. -/
theorem C9_scoreHonBallot_rescales_witness :
    ∃ b, scoreHonBallot [0, 2, 1] = Except.ok b ∧
      b.length = ([0, 2, 1] : List ℚ).length ∧
      (∀ v ∈ b, 0 ≤ v ∧ v ≤ 10) ∧
      (∀ i, i < ([0, 2, 1] : List ℚ).length →
        ([0, 2, 1] : List ℚ).getD i 0 = 0 → b.getD i 0 = 0) ∧
      (∀ i, i < ([0, 2, 1] : List ℚ).length →
        ([0, 2, 1] : List ℚ).getD i 0 = 2 → b.getD i 0 = 10) :=
  C9_scoreHonBallot_rescales [0, 2, 1] 0 2 (by decide) (by decide) (by decide)

/-- C2: the claim says the frontrunners are the two highest-scoring
candidates of the poll.  The code sorts `enumerate(info)` with
`key=lambda x: x[0]` — the candidate index, not the score — so for every
poll of at least two candidates the "frontrunners" are always candidates
0 and 1, regardless of scores. -/
theorem C2_frontrunners_are_first_two (info : List ℚ)
    (h : 2 ≤ info.length) :
    scoreFrontrunners info = (0, 1) := by
  have hpw : List.Pairwise (fun a b : Nat × ℚ => (decide (a.1 ≤ b.1)) = true)
      info.enum := by
    have h1 : List.Pairwise (· ≤ ·) (info.enum.map Prod.fst) := by
      rw [List.enum_eq_enumFrom, List.enumFrom_map_fst, ← List.range_eq_range']
      exact List.pairwise_le_range _
    rw [List.pairwise_map] at h1
    exact h1.imp fun hab => by simpa using hab
  have hsort : info.enum.mergeSort (fun a b => a.1 ≤ b.1) = info.enum :=
    List.mergeSort_of_sorted hpw
  have hlen : info.enum.length = info.length := by simp
  simp only [scoreFrontrunners, hsort]
  rw [List.enum_eq_enumFrom]
  rw [List.getD_eq_getElem _ _ (by simp; omega),
    List.getD_eq_getElem _ _ (by simp; omega)]
  simp [List.getElem_enumFrom]

/-- Witness for C2 at the poll `[1, 5, 10]`: the code's frontrunners are
candidates 0 and 1, although the two highest-scoring are 2 and 1. -/
theorem C2_frontrunners_are_first_two_witness :
    scoreFrontrunners [1, 5, 10] = (0, 1) ∧ (0, 1) ≠ (2, 1) :=
  ⟨C2_frontrunners_are_first_two [1, 5, 10] (by decide), by decide⟩

/-- C8: for an even voter count the mirrored-polarization model returns
`nvot/2` copies of the base voter followed by `nvot/2` copies of its
negation, and hybridizing the base voter with its negation at weight 1
gives the all-zero voter. -/
theorem C8_reverseModel_camps (nvot : Nat) (base : List ℝ)
    (h : nvot % 2 = 0) :
    ∃ camps, reverseModel nvot base = Except.ok camps ∧
      camps.length = nvot ∧
      (∀ i, i < nvot / 2 → camps.getD i [] = base) ∧
      (∀ i, nvot / 2 ≤ i → i < nvot → camps.getD i [] =
        base.map fun q => -q) ∧
      hybridWith base (base.map fun q => -q) 1 =
        some (List.replicate base.length 0) := by
  refine ⟨List.replicate (nvot / 2) base ++
      List.replicate (nvot / 2) (base.map fun q => -q),
    by simp [reverseModel, h], by simp; omega, ?_, ?_, ?_⟩
  · intro i hi
    rw [List.getD_eq_getElem _ _ (by simp; omega)]
    rw [List.getElem_append_left (by simpa using hi)]
    simp
  · intro i hge hlt
    rw [List.getD_eq_getElem _ _ (by simp; omega)]
    rw [List.getElem_append_right (by simpa using hge)]
    simp
  · have hlenmap : base.length = (base.map fun q => -q).length := by simp
    simp only [hybridWith, if_pos hlenmap]
    congr 1
    apply List.eq_replicate_iff.2
    refine ⟨by simp, ?_⟩
    intro b hbmem
    obtain ⟨i, hi, rfl⟩ := List.mem_map.1 hbmem
    rw [List.mem_range] at hi
    rw [List.getD_eq_getElem base _ hi,
      List.getD_eq_getElem (base.map fun q => -q) _ (by simpa using hi)]
    simp only [List.getElem_map]
    ring

/-- Witness for C8 at `nvot = 4` with base voter `[1, -2]`. -/
theorem C8_reverseModel_camps_witness :
    ∃ camps, reverseModel 4 [1, -2] = Except.ok camps ∧
      camps.length = 4 ∧
      (∀ i, i < 4 / 2 → camps.getD i [] = [1, -2]) ∧
      (∀ i, 4 / 2 ≤ i → i < 4 → camps.getD i [] =
        ([1, -2] : List ℝ).map fun q => -q) ∧
      hybridWith [1, -2] (([1, -2] : List ℝ).map fun q => -q) 1 =
        some (List.replicate ([1, -2] : List ℝ).length 0) :=
  C8_reverseModel_camps 4 [1, -2] (by norm_num)

/-- C6: the winners list contains exactly the indices whose score is the
maximum, every random draw selects a member of it, every member is
selected by some draw (and the list has no duplicates, so a uniform draw
selects uniformly among the tied indices), and a unique maximum is always
returned. -/
theorem C6_winner_spec (results : List ℚ) (h : results ≠ []) :
    (∀ i, i ∈ winnersOf results ↔
      i < results.length ∧ some (results.getD i 0) = winScore results) ∧
    (∀ k, winner results k ∈ winnersOf results) ∧
    (∀ i ∈ winnersOf results,
      ∃ k, k < (winnersOf results).length ∧ winner results k = i) ∧
    (winnersOf results).Nodup ∧
    (∀ i, winnersOf results = [i] → ∀ k, winner results k = i) := by
  have hmem : ∀ i, i ∈ winnersOf results ↔
      i < results.length ∧ some (results.getD i 0) = winScore results := by
    intro i
    constructor
    · intro hi
      obtain ⟨x, hxf, rfl⟩ := List.mem_map.1 hi
      obtain ⟨hxe, hpx⟩ := List.mem_filter.1 hxf
      have hx2 := List.mem_enum_iff_getElem?.1 hxe
      have hlt : x.1 < results.length := by
        by_contra hge
        rw [List.getElem?_eq_none (by omega)] at hx2
        exact Option.noConfusion hx2
      refine ⟨hlt, ?_⟩
      rw [List.getD_eq_getElem _ _ hlt]
      have hval : results[x.1] = x.2 := by
        rw [List.getElem?_eq_getElem hlt] at hx2
        exact Option.some.inj hx2
      rw [hval]
      simpa using hpx
    · rintro ⟨hlt, hsc⟩
      apply List.mem_map.2
      refine ⟨(i, results.getD i 0), ?_, rfl⟩
      apply List.mem_filter.2
      refine ⟨?_, by simpa using hsc⟩
      apply List.mem_enum_iff_getElem?.2
      rw [List.getElem?_eq_getElem hlt, List.getD_eq_getElem _ _ hlt]
  have hne : winnersOf results ≠ [] := by
    cases hm : results.max? with
    | none => exact absurd (List.max?_eq_none_iff.1 hm) h
    | some m =>
      have hmm : m ∈ results := List.max?_mem (fun a b => max_choice a b) hm
      obtain ⟨j, hj, hget⟩ := List.mem_iff_getElem.1 hmm
      have hjw : j ∈ winnersOf results := by
        apply (hmem j).2
        refine ⟨hj, ?_⟩
        rw [List.getD_eq_getElem _ _ hj, hget]
        simp [winScore, hm]
      intro hnil
      rw [hnil] at hjw
      exact List.not_mem_nil _ hjw
  have hpos : 0 < (winnersOf results).length := List.length_pos.2 hne
  refine ⟨hmem, ?_, ?_, ?_, ?_⟩
  · intro k
    have hk : k % (winnersOf results).length < (winnersOf results).length :=
      Nat.mod_lt _ hpos
    rw [winner, List.getD_eq_getElem _ _ hk]
    exact List.getElem_mem _
  · intro i hi
    obtain ⟨j, hj, hget⟩ := List.mem_iff_getElem.1 hi
    refine ⟨j, hj, ?_⟩
    rw [winner, Nat.mod_eq_of_lt hj, List.getD_eq_getElem _ _ hj]
    exact hget
  · have h1 : List.Pairwise (· < ·) (results.enum.map Prod.fst) := by
      rw [List.enum_eq_enumFrom, List.enumFrom_map_fst, ← List.range_eq_range']
      exact List.pairwise_lt_range _
    have henum : results.enum.Pairwise (fun a b => a.1 < b.1) :=
      List.pairwise_map.1 h1
    have hfil := List.Pairwise.sublist
      (@List.filter_sublist (ℕ × ℚ)
        (fun p => decide (some p.2 = winScore results)) results.enum) henum
    exact List.pairwise_map.2 (hfil.imp fun hab => Nat.ne_of_lt hab)
  · intro i hone k
    rw [winner, hone]
    simp [Nat.mod_one]

/-- Witness for C6: the unique maximum of `[1,2,3,2,-100]` is returned for
every draw, and the winners of the tied poll `[1,2,1,3,3,3,2,1,2]` are
exactly `{3,4,5}`, each hit by every draw. -/
theorem C6_winner_spec_witness :
    winner [1, 2, 3, 2, -100] 0 = 2 ∧ winner [1, 2, 3, 2, -100] 7 = 2 ∧
    winnersOf [1, 2, 1, 3, 3, 3, 2, 1, 2] = [3, 4, 5] ∧
    (∀ k, winner [1, 2, 1, 3, 3, 3, 2, 1, 2] k ∈ ([3, 4, 5] : List Nat)) := by
  have h := C6_winner_spec [1, 2, 3, 2, -100] (by simp)
  have h2 := C6_winner_spec [1, 2, 1, 3, 3, 3, 2, 1, 2] (by simp)
  have hw : winnersOf [1, 2, 1, 3, 3, 3, 2, 1, 2] = [3, 4, 5] := by decide
  refine ⟨h.2.2.2.2 2 (by decide) 0, h.2.2.2.2 2 (by decide) 7, hw, ?_⟩
  intro k
  have hk := h2.2.1 k
  rwa [hw] at hk

/-- C7 counterexample: with a seed electorate of three voters and a
requested voter count of two, the loop body never runs and the final
electorate has three voters — more than requested — refuting "the final
electorate size equals the requested voterCount and never exceeds it"
as a statement about every seedVoterCount. -/
theorem C7_polya_size_counterexample :
    (polyaExtend 1 (fun v _ => v) (fun _ => []) (fun _ => 0) 2
        [[0], [0], [0]]).length = 3 ∧ (2 : Nat) < 3 := by
  constructor
  · rw [polyaExtend]
    norm_num
  · norm_num

/-- C7 (amended): the urn loop terminates (`polyaExtend` is total, with
termination measure `nvot - election.length`, each iteration appending
exactly one voter); the final size is `max nvot seedSize`, which equals
the requested `nvot` — and hence never exceeds it — whenever the seed
electorate is not larger than `nvot`. -/
theorem C7_polya_size (alpha : Nat) (mutate : List ℚ → Nat → List ℚ)
    (fresh : Nat → List ℚ) (draw : Nat → Nat) (nvot : Nat)
    (_halpha : 1 ≤ alpha) :
    (∀ election : List (List ℚ),
      (polyaExtend alpha mutate fresh draw nvot election).length =
        max nvot election.length) ∧
    (∀ election : List (List ℚ), election.length ≤ nvot →
      (polyaExtend alpha mutate fresh draw nvot election).length = nvot) := by
  have key : ∀ fuel election, nvot - List.length election = fuel →
      (polyaExtend alpha mutate fresh draw nvot election).length =
        max nvot election.length := by
    intro fuel
    induction fuel using Nat.strong_induction_on with
    | _ fuel ih =>
      intro e he
      rw [polyaExtend]
      split
      · next hlt =>
        have hgen : ∀ l' : List (List ℚ), l'.length = e.length + 1 →
            (polyaExtend alpha mutate fresh draw nvot l').length =
              max nvot e.length := by
          intro l' hl'
          rw [ih (nvot - l'.length) (by omega) l' rfl, hl']
          omega
        exact hgen _ (by simp)
      · next hge =>
        rw [Nat.max_eq_right (Nat.le_of_not_lt hge)]
  exact ⟨fun e => key _ e rfl, fun e hle => by
    rw [key _ e rfl, Nat.max_eq_left hle]⟩

/-- Witness for the amended C7: a two-voter seed grown to three voters. -/
theorem C7_polya_size_witness :
    (polyaExtend 1 (fun v _ => v) (fun _ => [0]) (fun _ => 0) 3
        [[0], [0]]).length = 3 :=
  (C7_polya_size 1 (fun v _ => v) (fun _ => [0]) (fun _ => 0) 3
    (by norm_num)).2 [[0], [0]] (by norm_num)

end VseSim
